import Mathlib

/-!
Verification development for the fake-pw M3U8 downloader service
(`src/app.py` and `src/app_fixed.py`).

The embedding models, from the source:
  * the progress-line parsing of `monitor_progress` (app.py lines 85-111);
  * the single-job lifecycle of `download_m3u8_video_with_progress` together
    with the `cancel_download` endpoint of app.py, as a step model over the
    job's progress record (the module-level environment of app.py — its
    imports and globals — is modelled separately, see `AppPyMod`);
  * `download_m3u8_video`, `stream_download_video` and `download_video` of
    app_fixed.py as functions of an abstract world (tool availability,
    process exit code, output-file existence, stderr text);
  * the module scope of app.py: the names it binds and the malformed `try`
    statement opened at line 60.

Real-valued quantities (`time.time()`, float division) are modelled by `ℚ`;
the string rendering of floats (`f-strings` such as `f"{speed_mbps:.2f} MB/s"`)
is not modelled — the record keeps the numeric value being rendered.
-/

namespace FakePW

/-! ### Status strings of app.py's progress records -/

def stInitializing : String := "initializing"

def stDownloading : String := "downloading"

def stCompleted : String := "completed"

def stError : String := "error"

def stCancelled : String := "cancelled"

def stRunning : String := "running"

/-! ### Progress Parser (app.py, `monitor_progress`, lines 90-95)

`line = line.decode().strip()`, then `if "size=" in line:` and
`re.search(r'size=\s*(\d+)', line)`. -/

/-- ASCII decimal digit: the characters of the `\d` class in the pattern
`size=\s*(\d+)` (app.py line 93; Unicode digits are not modelled). -/
def isDigitChar (c : Char) : Bool := 48 ≤ c.toNat && c.toNat ≤ 57

/-- Whitespace of the `\s` class: space, tab, newline, carriage return,
vertical tab, form feed (Unicode spaces are not modelled). -/
def isSpaceChar (c : Char) : Bool :=
  c.toNat = 32 || c.toNat = 9 || c.toNat = 10 || c.toNat = 13 || c.toNat = 11 || c.toNat = 12

/-- Numeric value of one digit character. -/
def digitVal (c : Char) : Nat := c.toNat - 48

/-- Numeric value of a digit run, as Python `int` reads `size_match.group(1)`. -/
def digitsToNat (l : List Char) : Nat := l.foldl (fun a c => 10 * a + digitVal c) 0

/-- Greedy `\s*`: drop the maximal run of whitespace characters at the head. -/
def skipSpaces : List Char → List Char
  | [] => []
  | c :: cs => if isSpaceChar c then skipSpaces cs else c :: cs

/-- Greedy `\d+` candidate: the maximal run of digit characters at the head. -/
def leadingDigits : List Char → List Char
  | [] => []
  | c :: cs => if isDigitChar c then c :: leadingDigits cs else []

/-- Remainder after the literal `size=` at the head of the list, when the
head is that literal. -/
def afterSizeKey : List Char → Option (List Char)
  | 's' :: 'i' :: 'z' :: 'e' :: '=' :: rest => some rest
  | _ => none

/-- One attempt of `size=\s*(\d+)` anchored at the head: the numeric value of
the captured digit group on success. -/
def matchSizeAt (l : List Char) : Option Nat :=
  match afterSizeKey l with
  | none => none
  | some rest =>
    let ds := leadingDigits (skipSpaces rest)
    if ds = [] then none else some (digitsToNat ds)

/-- Semantics of `re.search(r'size=\s*(\d+)', line)`: the anchored match is
tried at every position, left to right (app.py line 93). -/
def searchSize : List Char → Option Nat
  | [] => none
  | c :: cs =>
    match matchSizeAt (c :: cs) with
    | some n => some n
    | none => searchSize cs

/-- Python substring test `"size=" in line` (app.py line 92). -/
def containsSizeKey : List Char → Bool
  | [] => false
  | c :: cs => (afterSizeKey (c :: cs)).isSome || containsSizeKey cs

/-- Python `str.strip` over the modelled (ASCII) whitespace set, applied to
each decoded line (app.py line 90). -/
def pyStrip (s : String) : String :=
  String.mk ((skipSpaces (skipSpaces s.data).reverse).reverse)

/-- The Progress Parser: the kilobyte figure extracted from one line of the
external process's output, `none` when the line does not match
(app.py lines 92-95). -/
def parseSizeLine (line : String) : Option Nat :=
  if containsSizeKey line.data then searchSize line.data else none

/-- The progress-line grammar as the spec words it: the line contains a
`size=` key/value token whose value is numeric — a decomposition into the
literal key, optional whitespace and a nonempty digit run. -/
def SizeToken (l : List Char) : Prop :=
  ∃ pre ws ds post,
    l = pre ++ [ 's', 'i', 'z', 'e', '=' ] ++ ws ++ ds ++ post ∧
    (∀ c ∈ ws, isSpaceChar c = true) ∧ ds ≠ [] ∧ (∀ c ∈ ds, isDigitChar c = true)

/-! ### Job lifecycle of app.py (`download_m3u8_video_with_progress`,
`monitor_progress`, `cancel_download`)

This models the code of the cited lines as written, for one job; the
module-level environment those functions would need (the never-initialised
`download_progress` dict, the missing `time` and `re` imports, the malformed
`try` statement) is the subject of the separate `AppPyMod` model below. -/

namespace AppPyRun

/-- Initial value of the `download_speed` key (app.py line 50), never
updated afterwards: line 102 writes a different key, `speed`. -/
def zeroSpeedStr : String := "0 MB/s"

/-- The progress dict created for one job at app.py lines 45-57. `eta = none`
models the `"calculating..."` placeholder and `speed = none` the absence of
the `"speed"` key that line 102 later adds; `eta` and `speed` keep the
numeric values the code renders into strings. -/
structure ProgressRecord where
  status : String
  progress_percent : Nat
  segments_downloaded : Nat
  total_segments : Nat
  download_speed : String
  eta : Option (Nat × Nat)
  current_segment : String
  start_time : ℚ
  bytes_downloaded : Nat
  total_bytes : Nat
  error : Option String
  speed : Option ℚ
  deriving DecidableEq

/-- The record as initialised at app.py lines 45-57. -/
def initRecord (t0 : ℚ) : ProgressRecord where
  status := stInitializing
  progress_percent := 0
  segments_downloaded := 0
  total_segments := 0
  download_speed := zeroSpeedStr
  eta := none
  current_segment := ""
  start_time := t0
  bytes_downloaded := 0
  total_bytes := 0
  error := none
  speed := none

/-- Effect of one stdout line on the record (app.py lines 90-111): the
decoded line is stripped; on a `size=` match the byte counter is overwritten
with the kilobyte figure times 1024; when the elapsed time since
`start_time` is positive the speed in MB/s is recomputed, and once more than
one MiB is counted the heuristic ETA pair (minutes, seconds) is recomputed
from the fixed multiplier 15. -/
def monitorLine (r : ProgressRecord) (line : String) (now : ℚ) : ProgressRecord :=
  match parseSizeLine (pyStrip line) with
  | none => r
  | some kb =>
    let bytes := kb * 1024
    let r1 := { r with bytes_downloaded := bytes }
    let elapsed := now - r1.start_time
    if 0 < elapsed then
      let speedMbps := ((bytes : ℚ) / elapsed) / (1024 * 1024)
      let r2 := { r1 with speed := some speedMbps }
      if 1024 * 1024 < bytes then
        let estimatedTotal := bytes * 15
        let remaining := estimatedTotal - bytes
        let etaSeconds := (remaining : ℚ) / ((bytes : ℚ) / elapsed)
        let etaMinutes := (etaSeconds / 60).floor.toNat
        let etaSecs := (etaSeconds - 60 * ((etaSeconds / 60).floor : ℚ)).floor.toNat
        { r2 with eta := some (etaMinutes, etaSecs) }
      else r2
    else r1

/-- State of one job: its progress record (present once created) and whether
its download directory has been removed. -/
structure JobState where
  record : Option ProgressRecord
  dirRemoved : Bool
  deriving DecidableEq

inductive CancelOutcome
  | notFound
  | invalidState
  | cancelledOk
  deriving DecidableEq

/-- The `cancel_download` endpoint registered first (app.py lines 161-182):
404 when the id is not a key of `download_progress`; 400 when the status is
neither `"downloading"` nor `"initializing"`; otherwise the status is
flipped to `"cancelled"` and the job's download directory is removed. (The
near-identical redefinition at lines 216-238 differs only by also writing
`current_segment`.) Nothing here signals the external process. -/
def cancelStep (s : JobState) : CancelOutcome × JobState :=
  match s.record with
  | none => (.notFound, s)
  | some r =>
    if r.status ≠ stDownloading ∧ r.status ≠ stInitializing then (.invalidState, s)
    else (.cancelledOk, { record := some { r with status := stCancelled }, dirRemoved := true })

/-- An event of the monitoring phase: one stdout line consumed by
`monitor_progress` (with the clock value read at app.py line 99), or one
concurrent request to the cancel endpoint. -/
inductive MonEv
  | line (s : String) (now : ℚ)
  | cancelReq
  deriving DecidableEq

def applyEv (s : JobState) (e : MonEv) : JobState :=
  match e with
  | .line str now => { s with record := s.record.map fun r => monitorLine r str now }
  | .cancelReq => (cancelStep s).2

/-- Tag of a snapshot: which step produced it. A `line` tag records whether
the line carried a byte-count sample. -/
inductive StepTag
  | init
  | versionCheck
  | line (sampled : Bool)
  | cancelReq
  | finish
  | postCancel
  deriving DecidableEq

def tagOf : MonEv → StepTag
  | .line s _ => .line (parseSizeLine (pyStrip s)).isSome
  | .cancelReq => .cancelReq

/-- Diagnostic written by the version probe's failure branch (app.py line 69). -/
def ffmpegUnavailableMsg : String := "FFmpeg is not available in the system"

/-- App.py lines 67-69: a nonzero `ffmpeg -version` exit code writes status
`"error"` and the error message — and, the `return` being missing, execution
falls through to spawning the download process anyway. -/
def applyCheckFail (s : JobState) : JobState :=
  { s with record := s.record.map fun r =>
      { r with status := stError, error := some ffmpegUnavailableMsg } }

/-- App.py lines 118-123: exit code zero together with an existing output
file writes status `"completed"`; any other outcome writes status `"error"`
(the record's `error` field is not written on this path — the diagnostic
goes only into the returned dict). -/
def finishWrite (ez oe : Bool) (s : JobState) : JobState :=
  if ez ∧ oe then
    { s with record := s.record.map fun rec => { rec with status := stCompleted } }
  else
    { s with record := s.record.map fun rec => { rec with status := stError } }

/-- One atomic update of the job's state after its record exists: the
version probe's failure write, a monitoring-phase event, the final status
write at process exit, or a late cancel request. -/
inductive StepKind
  | versionCheck
  | ev (e : MonEv)
  | fin (ez oe : Bool)
  | postCancel
  deriving DecidableEq

def stepFn (s : JobState) : StepKind → JobState
  | .versionCheck => applyCheckFail s
  | .ev e => applyEv s e
  | .fin ez oe => finishWrite ez oe s
  | .postCancel => (cancelStep s).2

def tagOfStep : StepKind → StepTag
  | .versionCheck => .versionCheck
  | .ev e => tagOf e
  | .fin _ _ => .finish
  | .postCancel => .postCancel

/-- Tagged snapshots of the job state after each step, in order. -/
def scanSteps : JobState → List StepKind → List (StepTag × JobState)
  | _, [] => []
  | s, k :: ks => (tagOfStep k, stepFn s k) :: scanSteps (stepFn s k) ks

/-- The state after a whole step sequence. -/
def applySteps (s : JobState) (ks : List StepKind) : JobState := ks.foldl stepFn s

/-- One execution of `download_m3u8_video_with_progress` for one job, driven
by the externally determined data: the job's start clock, whether the
`ffmpeg -version` probe exited zero, the stdout lines interleaved with
concurrent cancel requests, the download process's final exit status, the
existence of the output file at that moment, and how many cancel requests
arrive after the final status write. -/
structure Run where
  t0 : ℚ
  versionOk : Bool
  events : List MonEv
  exitZero : Bool
  outputExists : Bool
  postCancels : Nat

def initState (t0 : ℚ) : JobState :=
  { record := some (initRecord t0), dirRemoved := false }

/-- The version probe's failure write, when the probe exits nonzero. -/
def checkSteps (r : Run) : List StepKind :=
  if r.versionOk then [] else [StepKind.versionCheck]

def evSteps (r : Run) : List StepKind := r.events.map StepKind.ev

def postSteps (r : Run) : List StepKind :=
  List.replicate r.postCancels StepKind.postCancel

/-- All updates of one run, in program order: the probe's failure write when
it fails, the monitoring phase, the final status write, the late cancels. -/
def runSteps (r : Run) : List StepKind :=
  checkSteps r ++ evSteps r ++ [StepKind.fin r.exitZero r.outputExists] ++ postSteps r

/-- State once the monitoring phase begins. -/
def preState (r : Run) : JobState := applySteps (initState r.t0) (checkSteps r)

/-- State when the process exits, before the final status write. -/
def midState (r : Run) : JobState := applySteps (preState r) (evSteps r)

/-- State right after the final status write of app.py lines 118-123. -/
def finState (r : Run) : JobState :=
  finishWrite r.exitZero r.outputExists (midState r)

/-- Snapshots after the final status write (the late cancel requests). -/
def postTail (r : Run) : List (StepTag × JobState) :=
  scanSteps (finState r) (postSteps r)

/-- The full sequence of tagged snapshots of one job's state, in program
order, beginning with the creation of the record. -/
def execRun (r : Run) : List (StepTag × JobState) :=
  (StepTag.init, initState r.t0) :: scanSteps (initState r.t0) (runSteps r)

def statusOf (s : JobState) : Option String := s.record.map (·.status)

/-- The record exists and its status is one the code of app.py can have
written: `"initializing"` (creation), `"error"` (probe failure or process
failure), `"completed"` (process success) or `"cancelled"` (cancel
endpoint). -/
def GoodStatus (s : JobState) : Prop :=
  ∃ rec, s.record = some rec ∧
    (rec.status = stInitializing ∨ rec.status = stError ∨
     rec.status = stCompleted ∨ rec.status = stCancelled)


def bytesOf (s : JobState) : Nat := (s.record.map (·.bytes_downloaded)).getD 0

def speedOf (s : JobState) : Option ℚ := s.record.bind (·.speed)

/-- Whatever speed value the record holds is non-negative. -/
def SpeedOK (s : JobState) : Prop := ∀ q : ℚ, speedOf s = some q → 0 ≤ q

def etaOf (s : JobState) : Option (Nat × Nat) := s.record.bind (·.eta)

/-- The byte-count samples (kilobyte figures) carried by the stdout lines of
an event list, in order. -/
def sampleSizes (evs : List MonEv) : List Nat :=
  evs.filterMap fun e =>
    match e with
    | .line s _ => parseSizeLine (pyStrip s)
    | .cancelReq => none

/-- The byte-count samples carried by a step sequence. -/
def sampleSizesSteps (ks : List StepKind) : List Nat :=
  ks.filterMap fun k =>
    match k with
    | .ev (MonEv.line s _) => parseSizeLine (pyStrip s)
    | _ => none

/-- Checks a tagged snapshot sequence: no snapshot may carry a computed ETA
before the first line that carried a byte-count sample. -/
def etaBeforeSampleOK : List (StepTag × JobState) → Bool
  | [] => true
  | (tag, s) :: rest =>
    if tag = StepTag.line true then true
    else decide (etaOf s = none) && etaBeforeSampleOK rest

end AppPyRun

/-! ### Module scope of app.py

The facts of the module text itself: which names its top level binds, and
the shape of the `try` statement opened at line 60. -/

namespace AppPyMod

/-- Shape of a Python `try` statement: how many `except` clauses follow its
suite and whether a `finally` clause does. -/
structure PyTry where
  exceptClauses : Nat
  hasFinally : Bool
  deriving DecidableEq

/-- The `try` statement opened at app.py line 60: its suite ends at line 69
and the next statement, line 72, is back at the enclosing indentation with
no `except` or `finally` between them. -/
def innerTry : PyTry := { exceptClauses := 0, hasFinally := false }

/-- Python's grammar for a `try` statement: at least one `except` clause or
a `finally` clause; a bare `try` suite is a syntax error. -/
def tryWellFormed (t : PyTry) : Bool := 0 < t.exceptClauses || t.hasFinally

/-- Whether app.py compiles as a module: `innerTry` is its one syntactically
malformed statement, so the module parses exactly when that statement is
well formed. -/
def appParses : Bool := tryWellFormed innerTry

/-- The names bound at the module scope of app.py: the import bindings of
lines 1-10, the two top-level assignments, and the `def`/`async def`
statements (the two `cancel_download` definitions bind one name). -/
def moduleNames : List String :=
  ["FastAPI", "HTTPException", "Query", "JSONResponse", "FileResponse",
   "os", "uuid", "subprocess", "asyncio", "datetime", "shutil", "Path",
   "uvicorn", "app", "DOWNLOAD_BASE_DIR", "root", "health_check",
   "download_m3u8_video_with_progress", "stream_download_video",
   "cancel_download", "get_download_progress", "get_download_status",
   "serve_download_file", "list_download_files", "list_downloads"]

def globalDefined (n : String) : Bool := moduleNames.contains n

/-- Name of the progress registry read first by every progress-touching
endpoint body of app.py (lines 45, 164, 187). -/
def dpName : String := "download_progress"

/-- Outcome of invoking an app.py endpoint. -/
inductive OpOutcome
  | response (body : String)
  | httpError (code : Nat) (detail : String)
  | nameErr (missing : String)
  | syntaxErr
  deriving DecidableEq

/-- Invocation of an app.py endpoint whose body's first access to progress
state reads the module global `g`: when the module failed to parse, the
endpoint never exists (`syntaxErr`); when `g` is unbound, that first access
raises `NameError`; only otherwise is the handler's own logic — abstracted
here as `k` — reached at all. -/
def invokeEndpoint (g : String) (k : OpOutcome) : OpOutcome :=
  if appParses then
    if globalDefined g then k else .nameErr g
  else .syntaxErr

/-- Starting a job via `/stream` (app.py lines 129-159): the awaited
`download_m3u8_video_with_progress` first writes `download_progress[...]`
(line 45). -/
def startJobOp (k : OpOutcome) (_url : String) : OpOutcome := invokeEndpoint dpName k

/-- The `/progress/{download_id}` query (app.py lines 184-214): its first
statement reads `download_progress` (line 187). -/
def progressQueryOp (k : OpOutcome) (_id : String) : OpOutcome := invokeEndpoint dpName k

/-- The `/cancel/{download_id}` endpoint (app.py lines 161-182): its first
statement reads `download_progress` (line 164). -/
def cancelOp (k : OpOutcome) (_id : String) : OpOutcome := invokeEndpoint dpName k

end AppPyMod

/-! ### app_fixed.py: `download_m3u8_video`, `stream_download_video`,
`download_video` -/

namespace AppFixed

/-- Externally determined facts one call observes: whether the `ffmpeg`
executable can be spawned at all (`FileNotFoundError` otherwise), the
version probe's exit code, whether spawning the download command succeeds,
the text of the exception when it does not, the download process's exit
code, the existence and size of the output file at process exit, the
decoded stderr text (`""` for empty), and the timestamp string interpolated
into the output filename. -/
structure World where
  ffmpegFound : Bool
  versionRc : Int
  mainSpawnOk : Bool
  mainSpawnErrMsg : String
  exitCode : Int
  outputExists : Bool
  outputSize : Nat
  stderrText : String
  timestamp : String
  deriving DecidableEq

def slash : String := "/"

def videoStem : String := "video_"

def mp4Ext : String := ".mp4"

/-- `os.path.join(download_dir, f"video_{...}.mp4")` (app_fixed.py line 58). -/
def outputFile (dir : String) (w : World) : String :=
  dir ++ slash ++ videoStem ++ w.timestamp ++ mp4Ext

def notInstalledMsg : String := "FFmpeg is not installed"

def notAvailableMsg : String := "FFmpeg is not available in the system"

def excStem : String := "Exception occurred: "

def dlFailedStem : String := "Download failed: "

def unknownErrorMsg : String := "Unknown error"

def dlDoneMsg : String := "Download completed"

/-- `error_msg = stderr.decode() if stderr else "Unknown error"`
(app_fixed.py line 88). -/
def errText (w : World) : String :=
  if w.stderrText ≠ "" then w.stderrText else unknownErrorMsg

/-- Value returned by `download_m3u8_video`: the success dict or the error
dict, each reduced to the fields the callers read. -/
inductive DlResult
  | ok (message filePath : String) (fileSize : Nat)
  | err (message : String)
  deriving DecidableEq

/-- Result of one call together with whether the download process was
spawned at all. -/
structure DlOutcome where
  result : DlResult
  mainSpawned : Bool
  deriving DecidableEq

/-- `download_m3u8_video` of app_fixed.py (lines 41-92): probe
`ffmpeg -version` (FileNotFoundError is answered without spawning the
download; so is a nonzero probe exit, via the `return` at line 53); then
spawn ffmpeg on the URL; on exit code zero with an existing output file
answer the success dict, otherwise the `"Download failed: ..."` error dict;
an exception while spawning is caught by the outer handler (line 91). -/
def download_m3u8_video (w : World) (dir : String) : DlOutcome :=
  if ¬ w.ffmpegFound then { result := .err notInstalledMsg, mainSpawned := false }
  else if w.versionRc ≠ 0 then { result := .err notAvailableMsg, mainSpawned := false }
  else if ¬ w.mainSpawnOk then
    { result := .err (excStem ++ w.mainSpawnErrMsg), mainSpawned := false }
  else if w.exitCode = 0 ∧ w.outputExists then
    { result := .ok dlDoneMsg (outputFile dir w) w.outputSize, mainSpawned := true }
  else
    { result := .err (dlFailedStem ++ errText w), mainSpawned := true }

def urlRequiredMsg : String := "URL parameter is required"

def invalidUrlMsg : String := "Invalid URL format"

def httpStem : String := "http://"

def httpsStem : String := "https://"

def baseDir : String := "downloads"

/-- Python `str.startswith`, on the underlying character lists. -/
def strStartsWith (s stem : String) : Bool := stem.data.isPrefixOf s.data

/-- `url.startswith(('http://', 'https://'))` (app_fixed.py line 101). -/
def validUrl (url : String) : Bool :=
  strStartsWith url httpStem || strStartsWith url httpsStem

def fiveHundredStem : String := "500: "

/-- `str(HTTPException(500, detail))` as Starlette renders it. -/
def httpExc500Str (detail : String) : String := fiveHundredStem ++ detail

def emptyStr : String := ""

def slashChar : Char := '/'

/-- `os.path.basename`: everything after the last path separator. -/
def basename (p : String) : String :=
  String.mk ((p.data.reverse.takeWhile fun c => decide (c ≠ slashChar)).reverse)

/-- `os.path.join(DOWNLOAD_BASE_DIR, download_id)`. -/
def jobDir (downloadId : String) : String := baseDir ++ slash ++ downloadId

/-- Whether one call runs to the success answer: the tool spawns, the probe
exits zero, the download process spawns and exits zero, and the output file
exists. -/
def downloadSucceeds (w : World) : Bool :=
  w.ffmpegFound && w.versionRc == 0 && w.mainSpawnOk && (w.exitCode == 0 && w.outputExists)

/-- An HTTP answer of the two download endpoints. -/
inductive HttpOutcome
  | badRequest (detail : String)
  | fileResponse (path filename : String)
  | completedJson (downloadId downloadPath filePath : String) (fileSize : Nat)
  | serverError (detail : String)
  deriving DecidableEq

/-- Observable effect of one handler call: the HTTP answer, whether the
job's download directory was created, whether it was removed again, and
whether the download process was spawned. -/
structure HandlerResult where
  outcome : HttpOutcome
  dirCreated : Bool
  dirRemoved : Bool
  mainSpawned : Bool
  deriving DecidableEq

/-- `stream_download_video` of app_fixed.py (lines 94-132): reject an empty
or non-HTTP(S) URL with 400 before any directory exists; otherwise create
the job directory, await the download to its end, and answer with the file
on success. On failure the directory is removed and the inner
`raise HTTPException(500, ...)` of line 127 is itself caught by the
`except Exception` of line 129, so the detail the caller sees is the
re-wrapped `"Download failed: 500: <original>"` (the removal runs twice,
idempotently). -/
def stream_download_video (w : World) (url downloadId : String) : HandlerResult :=
  if url = emptyStr then
    { outcome := .badRequest urlRequiredMsg, dirCreated := false, dirRemoved := false,
      mainSpawned := false }
  else if ¬ validUrl url then
    { outcome := .badRequest invalidUrlMsg, dirCreated := false, dirRemoved := false,
      mainSpawned := false }
  else
    let dir := jobDir downloadId
    let d := download_m3u8_video w dir
    match d.result with
    | .ok _ path _ =>
      { outcome := .fileResponse path (basename path), dirCreated := true,
        dirRemoved := false, mainSpawned := d.mainSpawned }
    | .err msg =>
      { outcome := .serverError (dlFailedStem ++ httpExc500Str msg), dirCreated := true,
        dirRemoved := true, mainSpawned := d.mainSpawned }

/-- `download_video` of app_fixed.py (lines 134-172): same shape as the
stream handler, but the success answer is the JSON body carrying
`status: "completed"`, the download path and the file info. -/
def download_video (w : World) (url downloadId : String) : HandlerResult :=
  if url = emptyStr then
    { outcome := .badRequest urlRequiredMsg, dirCreated := false, dirRemoved := false,
      mainSpawned := false }
  else if ¬ validUrl url then
    { outcome := .badRequest invalidUrlMsg, dirCreated := false, dirRemoved := false,
      mainSpawned := false }
  else
    let dir := jobDir downloadId
    let d := download_m3u8_video w dir
    match d.result with
    | .ok _ path size =>
      { outcome := .completedJson downloadId dir path size, dirCreated := true,
        dirRemoved := false, mainSpawned := d.mainSpawned }
    | .err msg =>
      { outcome := .serverError (dlFailedStem ++ httpExc500Str msg), dirCreated := true,
        dirRemoved := true, mainSpawned := d.mainSpawned }

end AppFixed

/-! ### Concrete inputs used by closed theorems -/

def urlSample : String := "https://example.com/stream.m3u8"

def idSample : String := "J1"

def unknownId : String := "deadbeef"

def notFoundDetail : String := "Download ID not found"

def timeName : String := "time"

def reName : String := "re"

def tsSample : String := "20240101_120000"

def stderrSample : String := "m3u8 open failed"

def spawnMsgSample : String := "spawn failed"

/-- A world where the tool works, the download process exits zero and the
output file exists (30 MiB). -/
def wOk : AppFixed.World :=
  { ffmpegFound := true, versionRc := 0, mainSpawnOk := true,
    mainSpawnErrMsg := spawnMsgSample, exitCode := 0, outputExists := true,
    outputSize := 31457280, stderrText := stderrSample, timestamp := tsSample }

/-- The same world except that the download process exits 1. -/
def wFail : AppFixed.World := { wOk with exitCode := 1 }

/-- The same world except that `ffmpeg` cannot be spawned at all. -/
def wNoTool : AppFixed.World := { wOk with ffmpegFound := false }

def lineKb100 : String := "size= 100"

def lineKb50 : String := "size= 50"

def lineKb2048 : String := "size=    2048kB time=00:00:02.02 bitrate= 964.9kbits/s"

/-- A run that is cancelled while the process is still producing output and
whose process then exits zero with an existing output file. -/
def runCancelThenFinish : AppPyRun.Run :=
  { t0 := 0, versionOk := true, events := [AppPyRun.MonEv.cancelReq],
    exitZero := true, outputExists := true, postCancels := 0 }

/-- A run whose progress lines report a shrinking cumulative size. -/
def runShrinkingSizes : AppPyRun.Run :=
  { t0 := 0, versionOk := true,
    events := [AppPyRun.MonEv.line lineKb100 1, AppPyRun.MonEv.line lineKb50 2],
    exitZero := true, outputExists := true, postCancels := 0 }

/-- A run whose progress lines report a growing cumulative size, with one
late cancel request. -/
def runGrowingSizes : AppPyRun.Run :=
  { t0 := 0, versionOk := true,
    events := [AppPyRun.MonEv.line lineKb100 1, AppPyRun.MonEv.line lineKb2048 2],
    exitZero := true, outputExists := true, postCancels := 1 }

/-! ## Theorems

First the helper lemmas about the Progress Parser, the step functions and
the snapshot sequences; then one theorem (with witness or counterexample as
needed) per claim. -/

theorem afterSizeKey_eq_some {l rest : List Char} (h : afterSizeKey l = some rest) :
    l = [ 's', 'i', 'z', 'e', '=' ] ++ rest := by
  unfold afterSizeKey at h
  split at h
  · simp_all
  · exact absurd h (by simp)

theorem afterSizeKey_key (rest : List Char) :
    afterSizeKey ([ 's', 'i', 'z', 'e', '=' ] ++ rest) = some rest := rfl

theorem skipSpaces_decomp (l : List Char) :
    ∃ ws, l = ws ++ skipSpaces l ∧ ∀ c ∈ ws, isSpaceChar c = true := by
  induction l with
  | nil => exact ⟨[], rfl, by simp⟩
  | cons c cs ih =>
    by_cases h : isSpaceChar c
    · obtain ⟨ws, hw, hall⟩ := ih
      refine ⟨c :: ws, ?_, ?_⟩
      · rw [skipSpaces, if_pos h]
        simpa using hw
      · intro x hx
        rcases List.mem_cons.mp hx with hx | hx
        · exact hx ▸ h
        · exact hall x hx
    · refine ⟨[], ?_, by simp⟩
      rw [skipSpaces, if_neg h]
      simp

theorem skipSpaces_append {ws : List Char} (h : ∀ c ∈ ws, isSpaceChar c = true)
    (l : List Char) : skipSpaces (ws ++ l) = skipSpaces l := by
  induction ws with
  | nil => rfl
  | cons c cs ih =>
    rw [List.cons_append, skipSpaces, if_pos (h c (by simp))]
    exact ih fun x hx => h x (by simp [hx])

theorem skipSpaces_not_space {c : Char} (h : isSpaceChar c = false) (l : List Char) :
    skipSpaces (c :: l) = c :: l := by
  rw [skipSpaces, if_neg (by simp [h])]

theorem leadingDigits_all (l : List Char) :
    ∀ c ∈ leadingDigits l, isDigitChar c = true := by
  induction l with
  | nil => simp [leadingDigits]
  | cons c cs ih =>
    by_cases h : isDigitChar c
    · rw [leadingDigits, if_pos h]
      intro x hx
      rcases List.mem_cons.mp hx with hx | hx
      · exact hx ▸ h
      · exact ih x hx
    · rw [leadingDigits, if_neg h]
      simp

theorem leadingDigits_decomp (l : List Char) : ∃ post, l = leadingDigits l ++ post := by
  induction l with
  | nil => exact ⟨[], rfl⟩
  | cons c cs ih =>
    by_cases h : isDigitChar c
    · obtain ⟨post, hp⟩ := ih
      refine ⟨post, ?_⟩
      rw [leadingDigits, if_pos h]
      simpa using hp
    · exact ⟨c :: cs, by rw [leadingDigits, if_neg h]; simp⟩

theorem leadingDigits_cons_digit {c : Char} (h : isDigitChar c = true) (l : List Char) :
    leadingDigits (c :: l) = c :: leadingDigits l := by
  rw [leadingDigits, if_pos h]

theorem not_space_of_digit {c : Char} (h : isDigitChar c = true) : isSpaceChar c = false := by
  unfold isDigitChar at h
  unfold isSpaceChar
  simp only [Bool.and_eq_true, decide_eq_true_eq] at h
  simp only [Bool.or_eq_false_iff, decide_eq_false_iff_not]
  omega

theorem matchSizeAt_sound {l : List Char} {n : Nat} (h : matchSizeAt l = some n) :
    ∃ ws ds post,
      l = [ 's', 'i', 'z', 'e', '=' ] ++ ws ++ ds ++ post ∧
      (∀ c ∈ ws, isSpaceChar c = true) ∧ ds ≠ [] ∧ (∀ c ∈ ds, isDigitChar c = true) := by
  unfold matchSizeAt at h
  rcases hk : afterSizeKey l with _ | rest
  · rw [hk] at h
    exact absurd h (by simp)
  · rw [hk] at h
    simp only at h
    split at h
    · exact absurd h (by simp)
    · rename_i hne
      obtain ⟨ws, hws, hall⟩ := skipSpaces_decomp rest
      obtain ⟨post, hpost⟩ := leadingDigits_decomp (skipSpaces rest)
      refine ⟨ws, leadingDigits (skipSpaces rest), post, ?_, hall, hne, leadingDigits_all _⟩
      rw [afterSizeKey_eq_some hk]
      conv_lhs => rw [hws, hpost]
      simp [List.append_assoc]

theorem matchSizeAt_complete {ws ds post : List Char}
    (hws : ∀ c ∈ ws, isSpaceChar c = true) (hne : ds ≠ [])
    (hds : ∀ c ∈ ds, isDigitChar c = true) :
    (matchSizeAt ([ 's', 'i', 'z', 'e', '=' ] ++ (ws ++ (ds ++ post)))).isSome = true := by
  rcases ds with _ | ⟨d, ds2⟩
  · exact absurd rfl hne
  · have hd : isDigitChar d = true := hds d (by simp)
    unfold matchSizeAt
    rw [afterSizeKey_key]
    simp only
    rw [skipSpaces_append hws, List.cons_append,
      skipSpaces_not_space (not_space_of_digit hd), leadingDigits_cons_digit hd]
    simp

theorem matchSizeAt_afterKey {l : List Char} {n : Nat} (h : matchSizeAt l = some n) :
    (afterSizeKey l).isSome = true := by
  unfold matchSizeAt at h
  rcases hk : afterSizeKey l with _ | rest
  · rw [hk] at h
    exact absurd h (by simp)
  · simp

theorem searchSize_sound : ∀ {l : List Char} {n : Nat}, searchSize l = some n → SizeToken l := by
  intro l
  induction l with
  | nil => intro n h; exact absurd h (by simp [searchSize])
  | cons c cs ih =>
    intro n h
    unfold searchSize at h
    rcases hm : matchSizeAt (c :: cs) with _ | m
    · rw [hm] at h
      obtain ⟨pre, ws, ds, post, hl, h1, h2, h3⟩ := ih h
      exact ⟨c :: pre, ws, ds, post, by simp [hl], h1, h2, h3⟩
    · obtain ⟨ws, ds, post, hl, h1, h2, h3⟩ := matchSizeAt_sound hm
      exact ⟨[], ws, ds, post, by simp [hl, List.append_assoc], h1, h2, h3⟩

theorem searchSize_complete_aux :
    ∀ (pre l : List Char), (matchSizeAt l).isSome = true →
      (searchSize (pre ++ l)).isSome = true := by
  intro pre
  induction pre with
  | nil =>
    intro l h
    rcases l with _ | ⟨c, cs⟩
    · exact absurd h (by simp [matchSizeAt, afterSizeKey])
    · rw [List.nil_append]
      unfold searchSize
      rcases hm : matchSizeAt (c :: cs) with _ | m
      · rw [hm] at h
        exact absurd h (by simp)
      · simp
  | cons c pre2 ih =>
    intro l h
    rw [List.cons_append]
    unfold searchSize
    rcases hm : matchSizeAt (c :: (pre2 ++ l)) with _ | m
    · exact ih l h
    · simp

theorem containsSizeKey_of_search :
    ∀ {l : List Char}, (searchSize l).isSome = true → containsSizeKey l = true := by
  intro l
  induction l with
  | nil => simp [searchSize]
  | cons c cs ih =>
    intro h
    unfold searchSize at h
    unfold containsSizeKey
    rcases hm : matchSizeAt (c :: cs) with _ | m
    · rw [hm] at h
      simp [ih h]
    · simp [matchSizeAt_afterKey hm]

/-- C8: the Progress Parser is total by construction, and it yields a sample
exactly when the line contains a `size=` key/value token with a numeric
value — `re.search(r'size=\s*(\d+)', line)` preceded by the redundant
substring test of app.py line 92 succeeds on exactly the lines of the
progress-line grammar, and every other line yields no sample (rather than an
error). -/
theorem c8_progress_line_grammar_iff (line : String) :
    (parseSizeLine line).isSome = true ↔ SizeToken line.data := by
  unfold parseSizeLine
  constructor
  · intro h
    by_cases hc : containsSizeKey line.data
    · rw [if_pos hc] at h
      rcases hs : searchSize line.data with _ | n
      · rw [hs] at h
        simp at h
      · exact searchSize_sound hs
    · rw [if_neg hc] at h
      simp at h
  · intro ht
    obtain ⟨pre, ws, ds, post, hl, h1, h2, h3⟩ := ht
    have hsearch : (searchSize line.data).isSome = true := by
      rw [hl]
      have := searchSize_complete_aux pre ([ 's', 'i', 'z', 'e', '=' ] ++ (ws ++ (ds ++ post)))
        (@matchSizeAt_complete ws ds post h1 h2 h3)
      simpa [List.append_assoc] using this
    rw [if_pos (containsSizeKey_of_search hsearch)]
    exact hsearch

/-- Witness for C8 at a real ffmpeg progress line: the parser yields a
sample and the grammar decomposition exists. -/
theorem c8_progress_line_grammar_iff_witness :
    SizeToken lineKb2048.data ∧ (parseSizeLine lineKb100).isSome = true :=
  ⟨(c8_progress_line_grammar_iff lineKb2048).mp (by decide), by decide⟩

namespace AppPyRun

theorem monitorLine_parse_none {l : String} (h : parseSizeLine (pyStrip l) = none)
    (r : ProgressRecord) (t : ℚ) : monitorLine r l t = r := by
  unfold monitorLine
  rw [h]

theorem monitorLine_status (r : ProgressRecord) (l : String) (t : ℚ) :
    (monitorLine r l t).status = r.status := by
  unfold monitorLine
  cases hp : parseSizeLine (pyStrip l) with
  | none => rfl
  | some kb =>
    dsimp only
    split
    · split <;> rfl
    · rfl

theorem monitorLine_start_time (r : ProgressRecord) (l : String) (t : ℚ) :
    (monitorLine r l t).start_time = r.start_time := by
  unfold monitorLine
  cases hp : parseSizeLine (pyStrip l) with
  | none => rfl
  | some kb =>
    dsimp only
    split
    · split <;> rfl
    · rfl

theorem monitorLine_bytes {l : String} {kb : Nat} (h : parseSizeLine (pyStrip l) = some kb)
    (r : ProgressRecord) (t : ℚ) : (monitorLine r l t).bytes_downloaded = kb * 1024 := by
  unfold monitorLine
  rw [h]
  dsimp only
  split
  · split <;> rfl
  · rfl

theorem monitorLine_speed_cases (r : ProgressRecord) (l : String) (t : ℚ) :
    (monitorLine r l t).speed = r.speed ∨
    ∃ kb : Nat, parseSizeLine (pyStrip l) = some kb ∧ 0 < t - r.start_time ∧
      (monitorLine r l t).speed
        = some (((kb * 1024 : Nat) : ℚ) / (t - r.start_time) / (1024 * 1024)) := by
  unfold monitorLine
  cases hp : parseSizeLine (pyStrip l) with
  | none => exact Or.inl rfl
  | some kb =>
    dsimp only
    split
    · rename_i hlt
      refine Or.inr ⟨kb, rfl, hlt, ?_⟩
      split <;> rfl
    · exact Or.inl rfl

theorem monitorLine_speed_pos {l : String} {kb : Nat} (h : parseSizeLine (pyStrip l) = some kb)
    (r : ProgressRecord) (t : ℚ) (ht : 0 < t - r.start_time) :
    (monitorLine r l t).speed
      = some (((kb * 1024 : Nat) : ℚ) / (t - r.start_time) / (1024 * 1024)) := by
  unfold monitorLine
  rw [h]
  dsimp only
  rw [if_pos ht]
  split <;> rfl

theorem monitorLine_speed_nonpos {l : String} {kb : Nat} (h : parseSizeLine (pyStrip l) = some kb)
    (r : ProgressRecord) (t : ℚ) (ht : ¬ 0 < t - r.start_time) :
    (monitorLine r l t).speed = r.speed := by
  unfold monitorLine
  rw [h]
  dsimp only
  rw [if_neg ht]

theorem monitorLine_eta_of_unsampled {l : String} (h : parseSizeLine (pyStrip l) = none)
    (r : ProgressRecord) (t : ℚ) : (monitorLine r l t).eta = r.eta := by
  rw [monitorLine_parse_none h]

theorem cancelStep_snd_record (s : JobState) :
    (cancelStep s).2.record = s.record ∨
    ∃ r, s.record = some r ∧ (cancelStep s).2.record = some { r with status := stCancelled } := by
  unfold cancelStep
  cases hr : s.record with
  | none => exact Or.inl hr
  | some r =>
    dsimp only
    split
    · exact Or.inl hr
    · exact Or.inr ⟨r, rfl, rfl⟩

theorem cancelStep_snd_bytes (s : JobState) : bytesOf (cancelStep s).2 = bytesOf s := by
  rcases cancelStep_snd_record s with h | ⟨r, hr, h⟩
  · simp [bytesOf, h]
  · simp [bytesOf, h, hr]

theorem cancelStep_snd_eta (s : JobState) : etaOf (cancelStep s).2 = etaOf s := by
  rcases cancelStep_snd_record s with h | ⟨r, hr, h⟩
  · simp [etaOf, h]
  · simp [etaOf, h, hr]

theorem cancelStep_snd_speed (s : JobState) : speedOf (cancelStep s).2 = speedOf s := by
  rcases cancelStep_snd_record s with h | ⟨r, hr, h⟩
  · simp [speedOf, h]
  · simp [speedOf, h, hr]

theorem cancelStep_snd_isSome (s : JobState) :
    (cancelStep s).2.record.isSome = s.record.isSome := by
  rcases cancelStep_snd_record s with h | ⟨r, hr, h⟩
  · rw [h]
  · simp [h, hr]

theorem cancelStep_status_cases (s : JobState) :
    statusOf (cancelStep s).2 = statusOf s ∨ statusOf (cancelStep s).2 = some stCancelled := by
  rcases cancelStep_snd_record s with h | ⟨r, hr, h⟩
  · exact Or.inl (by simp [statusOf, h])
  · exact Or.inr (by simp [statusOf, h])

theorem cancelStep_noop {s : JobState} {st : String} (h : statusOf s = some st)
    (h1 : st ≠ stDownloading) (h2 : st ≠ stInitializing) : (cancelStep s).2 = s := by
  unfold cancelStep
  cases hr : s.record with
  | none => rfl
  | some r =>
    have hst : r.status = st := by
      rw [statusOf, hr] at h
      exact Option.some_injective _ h
    dsimp only
    rw [if_pos ⟨hst ▸ h1, hst ▸ h2⟩]

theorem applyCheckFail_parts (s : JobState) :
    bytesOf (applyCheckFail s) = bytesOf s ∧ etaOf (applyCheckFail s) = etaOf s ∧
    speedOf (applyCheckFail s) = speedOf s ∧
    (applyCheckFail s).record.isSome = s.record.isSome ∧
    (applyCheckFail s).dirRemoved = s.dirRemoved := by
  obtain ⟨rec, dir⟩ := s
  cases rec <;> simp [applyCheckFail, bytesOf, etaOf, speedOf]

theorem applyCheckFail_status {s : JobState} (h : s.record.isSome = true) :
    statusOf (applyCheckFail s) = some stError := by
  unfold applyCheckFail
  cases hr : s.record with
  | none => rw [hr] at h; exact absurd h (by simp)
  | some r => rfl

theorem finishWrite_parts (ez oe : Bool) (s : JobState) :
    bytesOf (finishWrite ez oe s) = bytesOf s ∧ etaOf (finishWrite ez oe s) = etaOf s ∧
    speedOf (finishWrite ez oe s) = speedOf s ∧
    (finishWrite ez oe s).record.isSome = s.record.isSome ∧
    (finishWrite ez oe s).dirRemoved = s.dirRemoved := by
  obtain ⟨rec, dir⟩ := s
  unfold finishWrite
  split <;> cases rec <;> simp [bytesOf, etaOf, speedOf]

theorem finishWrite_status {s : JobState} (h : s.record.isSome = true) (ez oe : Bool) :
    statusOf (finishWrite ez oe s) = some (if ez ∧ oe then stCompleted else stError) := by
  unfold finishWrite
  cases hr : s.record with
  | none => rw [hr] at h; exact absurd h (by simp)
  | some r => split <;> simp [statusOf, hr]

theorem applyEv_line_none {str : String} (h : parseSizeLine (pyStrip str) = none)
    (s : JobState) (now : ℚ) : applyEv s (.line str now) = s := by
  unfold applyEv
  cases s with
  | mk rec dir => cases rec <;> simp [monitorLine_parse_none h]

theorem applyEv_line_bytes {str : String} {kb : Nat} (h : parseSizeLine (pyStrip str) = some kb)
    {s : JobState} (hrec : s.record.isSome = true) (now : ℚ) :
    bytesOf (applyEv s (.line str now)) = kb * 1024 := by
  unfold applyEv
  cases hr : s.record with
  | none => rw [hr] at hrec; exact absurd hrec (by simp)
  | some r => simp [bytesOf, hr, monitorLine_bytes h]

theorem applyEv_isSome (s : JobState) (e : MonEv) :
    (applyEv s e).record.isSome = s.record.isSome := by
  cases e with
  | line str now =>
    unfold applyEv
    cases s.record <;> simp
  | cancelReq => exact cancelStep_snd_isSome s

theorem stepFn_isSome (s : JobState) (k : StepKind) :
    (stepFn s k).record.isSome = s.record.isSome := by
  cases k with
  | versionCheck => exact (applyCheckFail_parts s).2.2.2.1
  | ev e => exact applyEv_isSome s e
  | fin ez oe => exact (finishWrite_parts ez oe s).2.2.2.1
  | postCancel => exact cancelStep_snd_isSome s

theorem scanSteps_append (l1 l2 : List StepKind) :
    ∀ s : JobState,
      scanSteps s (l1 ++ l2) = scanSteps s l1 ++ scanSteps (applySteps s l1) l2 := by
  induction l1 with
  | nil => intro s; rfl
  | cons k ks ih =>
    intro s
    rw [List.cons_append, scanSteps, ih (stepFn s k), scanSteps]
    simp [applySteps]

theorem applySteps_append (l1 l2 : List StepKind) (s : JobState) :
    applySteps s (l1 ++ l2) = applySteps (applySteps s l1) l2 :=
  List.foldl_append ..

theorem scanSteps_inv (P : JobState → Prop) (hP : ∀ s k, P s → P (stepFn s k)) :
    ∀ (ks : List StepKind) (s : JobState), P s → ∀ p ∈ scanSteps s ks, P p.2 := by
  intro ks
  induction ks with
  | nil => intro s _ p hp; exact absurd hp (by simp [scanSteps])
  | cons k ks ih =>
    intro s hs p hp
    rw [scanSteps] at hp
    rcases List.mem_cons.mp hp with hp | hp
    · rw [hp]
      exact hP s k hs
    · exact ih (stepFn s k) (hP s k hs) p hp

theorem applySteps_inv (P : JobState → Prop) (hP : ∀ s k, P s → P (stepFn s k)) :
    ∀ (ks : List StepKind) (s : JobState), P s → P (applySteps s ks) := by
  intro ks
  induction ks with
  | nil => intro s hs; exact hs
  | cons k ks ih => intro s hs; exact ih (stepFn s k) (hP s k hs)

theorem scanSteps_getLast :
    ∀ (ks : List StepKind) (s : JobState) (p : StepTag × JobState),
      (scanSteps s ks).getLast? = some p → p.2 = applySteps s ks := by
  intro ks
  induction ks with
  | nil => intro s p hp; exact absurd hp (by simp [scanSteps])
  | cons k ks ih =>
    intro s p hp
    rw [scanSteps] at hp
    rcases hs : scanSteps (stepFn s k) ks with _ | ⟨q, qs⟩
    · rw [hs, List.getLast?_singleton] at hp
      have hks : ks = [] := by
        cases ks with
        | nil => rfl
        | cons a as => rw [scanSteps] at hs; exact absurd hs (by simp)
      rw [Option.some_injective _ hp |>.symm, hks]
      rfl
    · rw [hs, List.getLast?_cons_cons] at hp
      have h2 := ih (stepFn s k) p (by rw [hs]; exact hp)
      rw [h2]
      rfl

theorem cancelStep_good {s : JobState} (h : GoodStatus s) : GoodStatus (cancelStep s).2 := by
  obtain ⟨rec, hrec, hst⟩ := h
  rcases cancelStep_snd_record s with h2 | ⟨r, hr, h2⟩
  · exact ⟨rec, by rw [h2, hrec], hst⟩
  · exact ⟨_, h2, by simp⟩

theorem stepFn_good (s : JobState) (k : StepKind) (h : GoodStatus s) :
    GoodStatus (stepFn s k) := by
  obtain ⟨rec, hrec, hst⟩ := h
  cases k with
  | versionCheck =>
    refine ⟨{ rec with status := stError, error := some ffmpegUnavailableMsg }, ?_, by simp⟩
    simp [stepFn, applyCheckFail, hrec]
  | ev e =>
    cases e with
    | line str now =>
      refine ⟨monitorLine rec str now, ?_, ?_⟩
      · simp [stepFn, applyEv, hrec]
      · rw [monitorLine_status]
        exact hst
    | cancelReq => exact cancelStep_good ⟨rec, hrec, hst⟩
  | fin ez oe =>
    show GoodStatus (finishWrite ez oe s)
    unfold finishWrite
    split
    · exact ⟨{ rec with status := stCompleted }, by simp [hrec], by simp⟩
    · exact ⟨{ rec with status := stError }, by simp [hrec], by simp⟩
  | postCancel => exact cancelStep_good ⟨rec, hrec, hst⟩

theorem initState_good (t0 : ℚ) : GoodStatus (initState t0) :=
  ⟨initRecord t0, rfl, Or.inl rfl⟩

theorem execRun_good (r : Run) : ∀ p ∈ execRun r, GoodStatus p.2 := by
  intro p hp
  rw [execRun] at hp
  rcases List.mem_cons.mp hp with hp | hp
  · rw [hp]
    exact initState_good r.t0
  · exact scanSteps_inv GoodStatus stepFn_good (runSteps r) (initState r.t0)
      (initState_good r.t0) p hp

theorem goodStatus_not_running {s : JobState} (h : GoodStatus s) :
    statusOf s ≠ some stRunning := by
  obtain ⟨rec, hrec, hst⟩ := h
  simp only [statusOf, hrec, Option.map_some']
  intro he
  have hx : rec.status = stRunning := Option.some_injective _ he
  rcases hst with h1 | h1 | h1 | h1 <;> rw [h1] at hx <;> exact absurd hx (by decide)

theorem applySteps_isSome {s : JobState} (h : s.record.isSome = true) (ks : List StepKind) :
    (applySteps s ks).record.isSome = true :=
  applySteps_inv (fun t => t.record.isSome = true)
    (fun t k h2 => by
      show (stepFn t k).record.isSome = true
      rw [stepFn_isSome]
      exact h2) ks s h

theorem midState_isSome (r : Run) : (midState r).record.isSome = true := by
  unfold midState preState
  exact applySteps_isSome (@applySteps_isSome (initState r.t0) rfl (checkSteps r)) (evSteps r)

theorem finState_status (r : Run) :
    statusOf (finState r)
      = some (if r.exitZero ∧ r.outputExists then stCompleted else stError) :=
  finishWrite_status (midState_isSome r) r.exitZero r.outputExists

theorem scanReplicate_noop {s : JobState} (h : (cancelStep s).2 = s) :
    ∀ n : Nat, ∀ p ∈ scanSteps s (List.replicate n StepKind.postCancel), p.2 = s := by
  intro n
  induction n with
  | zero => simp [scanSteps]
  | succ m ih =>
    intro p hp
    rw [List.replicate_succ, scanSteps] at hp
    have hs : stepFn s StepKind.postCancel = s := h
    rw [hs] at hp
    rcases List.mem_cons.mp hp with hp | hp
    · rw [hp]
    · exact ih p hp

theorem finState_terminal_noop (r : Run) : (cancelStep (finState r)).2 = finState r := by
  exact cancelStep_noop (finState_status r) (by split <;> decide) (by split <;> decide)

theorem postTail_const (r : Run) : ∀ p ∈ postTail r, p.2 = finState r := by
  unfold postTail postSteps
  exact scanReplicate_noop (finState_terminal_noop r) r.postCancels

theorem execRun_decomp (r : Run) :
    execRun r = (StepTag.init, initState r.t0)
      :: (scanSteps (initState r.t0) (checkSteps r)
          ++ (scanSteps (preState r) (evSteps r)
              ++ ((StepTag.finish, finState r) :: postTail r))) := by
  unfold execRun runSteps postTail finState midState preState
  simp only [scanSteps_append, applySteps_append, List.append_assoc]
  simp [scanSteps, applySteps, stepFn, tagOfStep]

theorem stepFn_eta_pres {s : JobState} (k : StepKind)
    (hk : tagOfStep k ≠ StepTag.line true) (h : etaOf s = none) :
    etaOf (stepFn s k) = none := by
  cases k with
  | versionCheck =>
    show etaOf (applyCheckFail s) = none
    rw [(applyCheckFail_parts s).2.1]
    exact h
  | ev e =>
    cases e with
    | line str now =>
      have hp : parseSizeLine (pyStrip str) = none := by
        rcases hpp : parseSizeLine (pyStrip str) with _ | kb
        · rfl
        · exact absurd (by simp [tagOfStep, tagOf, hpp]) hk
      show etaOf (applyEv s (.line str now)) = none
      rw [applyEv_line_none hp]
      exact h
    | cancelReq =>
      show etaOf (cancelStep s).2 = none
      rw [cancelStep_snd_eta]
      exact h
  | fin ez oe =>
    show etaOf (finishWrite ez oe s) = none
    rw [(finishWrite_parts ez oe s).2.1]
    exact h
  | postCancel =>
    show etaOf (cancelStep s).2 = none
    rw [cancelStep_snd_eta]
    exact h

theorem etaOK_scan : ∀ (ks : List StepKind) (s : JobState), etaOf s = none →
    etaBeforeSampleOK (scanSteps s ks) = true := by
  intro ks
  induction ks with
  | nil => intro s _; rfl
  | cons k ks ih =>
    intro s h
    rw [scanSteps, etaBeforeSampleOK]
    by_cases htag : tagOfStep k = StepTag.line true
    · rw [if_pos htag]
    · rw [if_neg htag]
      have h1 := stepFn_eta_pres k htag h
      simp [h1, ih (stepFn s k) h1]

theorem etaOK_execRun (r : Run) : etaBeforeSampleOK (execRun r) = true := by
  rw [execRun, etaBeforeSampleOK]
  rw [if_neg (by decide)]
  have h0 : etaOf (initState r.t0) = none := rfl
  simp [h0, etaOK_scan (runSteps r) (initState r.t0) h0]

theorem stepFn_speedOK (s : JobState) (k : StepKind) (h : SpeedOK s) :
    SpeedOK (stepFn s k) := by
  cases k with
  | versionCheck =>
    intro q hq
    rw [show stepFn s StepKind.versionCheck = applyCheckFail s from rfl,
      (applyCheckFail_parts s).2.2.1] at hq
    exact h q hq
  | ev e =>
    cases e with
    | line str now =>
      intro q hq
      cases hr : s.record with
      | none =>
        rw [show stepFn s (.ev (.line str now)) = applyEv s (.line str now) from rfl] at hq
        rw [speedOf, applyEv] at hq
        rw [hr] at hq
        exact absurd hq (by simp)
      | some rec =>
        have hs2 : speedOf (stepFn s (.ev (.line str now)))
            = (monitorLine rec str now).speed := by
          show speedOf (applyEv s (.line str now)) = _
          rw [speedOf, applyEv, hr]
          rfl
        rw [hs2] at hq
        rcases monitorLine_speed_cases rec str now with hc | ⟨kb, _, hlt, hval⟩
        · apply h q
          rw [hc] at hq
          rw [speedOf, hr]
          exact hq
        · rw [hval] at hq
          have hnn : (0 : ℚ) ≤ ((kb * 1024 : Nat) : ℚ) / (now - rec.start_time) / (1024 * 1024) :=
            div_nonneg (div_nonneg (Nat.cast_nonneg _) (le_of_lt hlt)) (by norm_num)
          rw [← Option.some_injective _ hq]
          exact hnn
    | cancelReq =>
      intro q hq
      rw [show stepFn s (.ev .cancelReq) = (cancelStep s).2 from rfl,
        cancelStep_snd_speed] at hq
      exact h q hq
  | fin ez oe =>
    intro q hq
    rw [show stepFn s (.fin ez oe) = finishWrite ez oe s from rfl,
      (finishWrite_parts ez oe s).2.2.1] at hq
    exact h q hq
  | postCancel =>
    intro q hq
    rw [show stepFn s StepKind.postCancel = (cancelStep s).2 from rfl,
      cancelStep_snd_speed] at hq
    exact h q hq

theorem initState_speedOK (t0 : ℚ) : SpeedOK (initState t0) := by
  intro q hq
  rw [speedOf] at hq
  exact absurd hq (by simp [initState, initRecord])

theorem execRun_speedOK (r : Run) : ∀ p ∈ execRun r, SpeedOK p.2 := by
  intro p hp
  rw [execRun] at hp
  rcases List.mem_cons.mp hp with hp | hp
  · rw [hp]
    exact initState_speedOK r.t0
  · exact scanSteps_inv SpeedOK stepFn_speedOK (runSteps r) (initState r.t0)
      (initState_speedOK r.t0) p hp

theorem stepFn_bytes_cases (s : JobState) (k : StepKind) :
    bytesOf (stepFn s k) = bytesOf s ∨ tagOfStep k = StepTag.line true := by
  rcases k with _ | e | ⟨ez, oe⟩ | _
  · exact Or.inl (applyCheckFail_parts s).1
  · rcases e with ⟨str, now⟩ | _
    · rcases hp : parseSizeLine (pyStrip str) with _ | kb
      · refine Or.inl ?_
        show bytesOf (applyEv s (.line str now)) = bytesOf s
        rw [applyEv_line_none hp]
      · exact Or.inr (by simp [tagOfStep, tagOf, hp])
    · exact Or.inl (cancelStep_snd_bytes s)
  · exact Or.inl (finishWrite_parts ez oe s).1
  · exact Or.inl (cancelStep_snd_bytes s)

theorem scan_writer :
    ∀ (ks : List StepKind) (s : JobState) (p0 : StepTag × JobState), p0.2 = s →
      List.Chain' (fun p q => bytesOf q.2 = bytesOf p.2 ∨ q.1 = StepTag.line true)
        (p0 :: scanSteps s ks) := by
  intro ks
  induction ks with
  | nil => intro s p0 _; simp [scanSteps]
  | cons k ks ih =>
    intro s p0 hp0
    rw [scanSteps, List.chain'_cons]
    constructor
    · rcases stepFn_bytes_cases s k with hb | ht
      · exact Or.inl (by rw [hb, hp0])
      · exact Or.inr ht
    · exact ih (stepFn s k) (tagOfStep k, stepFn s k) rfl

theorem scan_bytes_chain :
    ∀ (ks : List StepKind) (s : JobState), s.record.isSome = true →
      List.Chain' (· ≤ ·) (sampleSizesSteps ks) →
      (∀ k ∈ (sampleSizesSteps ks).head?, bytesOf s ≤ k * 1024) →
      List.Chain' (· ≤ ·) (bytesOf s :: ((scanSteps s ks).map fun p => bytesOf p.2)) := by
  intro ks
  induction ks with
  | nil => intro s _ _ _; simp [scanSteps]
  | cons k ks ih =>
    intro s hrec hchain hhead
    rw [scanSteps, List.map_cons]
    have hpres : bytesOf (stepFn s k) = bytesOf s →
        sampleSizesSteps (k :: ks) = sampleSizesSteps ks →
        List.Chain' (· ≤ ·) (bytesOf s :: bytesOf (stepFn s k)
          :: ((scanSteps (stepFn s k) ks).map fun p => bytesOf p.2)) := by
      intro hb hsz
      rw [List.chain'_cons']
      refine ⟨?_, ?_⟩
      · intro y hy
        rw [List.head?_cons] at hy
        rw [← Option.some_injective _ hy, hb]
      · exact ih (stepFn s k) (by rw [stepFn_isSome]; exact hrec)
          (by rw [hsz] at hchain; exact hchain)
          (by intro k2 hk2; rw [hb]; exact hhead k2 (by rw [hsz]; exact hk2))
    rcases k with _ | e | ⟨ez, oe⟩ | _
    · exact hpres (applyCheckFail_parts s).1 (by simp [sampleSizesSteps, List.filterMap_cons])
    · rcases e with ⟨str, now⟩ | _
      · rcases hp : parseSizeLine (pyStrip str) with _ | kb
        · refine hpres ?_ (by simp [sampleSizesSteps, List.filterMap_cons, hp])
          show bytesOf (applyEv s (.line str now)) = bytesOf s
          rw [applyEv_line_none hp]
        · have hb : bytesOf (stepFn s (.ev (.line str now))) = kb * 1024 :=
            applyEv_line_bytes hp hrec now
          have hsz : sampleSizesSteps (StepKind.ev (MonEv.line str now) :: ks)
              = kb :: sampleSizesSteps ks := by
            simp [sampleSizesSteps, List.filterMap_cons, hp]
          rw [hsz] at hchain hhead
          rw [List.chain'_cons']
          refine ⟨?_, ?_⟩
          · intro y hy
            rw [List.head?_cons] at hy
            rw [← Option.some_injective _ hy, hb]
            exact hhead kb (by simp)
          · exact ih (stepFn s (.ev (.line str now))) (by rw [stepFn_isSome]; exact hrec)
              (List.chain'_cons'.mp hchain).2
              (by
                intro k2 hk2
                rw [hb]
                exact Nat.mul_le_mul_right 1024 ((List.chain'_cons'.mp hchain).1 k2 hk2))
      · exact hpres (cancelStep_snd_bytes s) (by simp [sampleSizesSteps, List.filterMap_cons])
    · exact hpres (finishWrite_parts ez oe s).1 (by simp [sampleSizesSteps, List.filterMap_cons])
    · exact hpres (cancelStep_snd_bytes s) (by simp [sampleSizesSteps, List.filterMap_cons])

theorem sampleSizesSteps_map_ev :
    ∀ evs : List MonEv, sampleSizesSteps (evs.map StepKind.ev) = sampleSizes evs := by
  intro evs
  induction evs with
  | nil => rfl
  | cons e es ih =>
    cases e with
    | line str now =>
      rw [List.map_cons]
      rw [show sampleSizesSteps (StepKind.ev (MonEv.line str now) :: es.map StepKind.ev)
        = (parseSizeLine (pyStrip str)).toList ++ sampleSizesSteps (es.map StepKind.ev) from by
          simp [sampleSizesSteps, List.filterMap_cons]
          cases parseSizeLine (pyStrip str) <;> simp]
      rw [show sampleSizes (MonEv.line str now :: es)
        = (parseSizeLine (pyStrip str)).toList ++ sampleSizes es from by
          simp [sampleSizes, List.filterMap_cons]
          cases parseSizeLine (pyStrip str) <;> simp]
      rw [ih]
    | cancelReq =>
      rw [List.map_cons]
      rw [show sampleSizesSteps (StepKind.ev MonEv.cancelReq :: es.map StepKind.ev)
        = sampleSizesSteps (es.map StepKind.ev) from by simp [sampleSizesSteps, List.filterMap_cons]]
      rw [show sampleSizes (MonEv.cancelReq :: es) = sampleSizes es from by
        simp [sampleSizes, List.filterMap_cons]]
      exact ih

theorem sampleSizesSteps_runSteps (r : Run) :
    sampleSizesSteps (runSteps r) = sampleSizes r.events := by
  unfold runSteps
  unfold sampleSizesSteps
  rw [List.filterMap_append, List.filterMap_append, List.filterMap_append]
  have h1 : List.filterMap
      (fun k => match k with
        | StepKind.ev (MonEv.line s _) => parseSizeLine (pyStrip s)
        | _ => none) (checkSteps r) = [] := by
    unfold checkSteps
    split <;> rfl
  have h4 : ∀ n : Nat, List.filterMap
      (fun k => match k with
        | StepKind.ev (MonEv.line s _) => parseSizeLine (pyStrip s)
        | _ => none) (List.replicate n StepKind.postCancel) = [] := by
    intro n
    induction n with
    | zero => rfl
    | succ m ihm => rw [List.replicate_succ, List.filterMap_cons]; exact ihm
  rw [h1]
  unfold postSteps
  rw [h4]
  have h5 := sampleSizesSteps_map_ev r.events
  unfold sampleSizesSteps at h5
  unfold evSteps
  rw [h5]
  simp [List.filterMap_cons]

end AppPyRun

/-- C5 as stated is false on app.py: in `runCancelThenFinish` a cancel
request flips the status to the terminal `"cancelled"` (snapshot 1), yet
the runner's final write at process exit overwrites it with `"completed"`
(snapshot 2) — `cancel_download` never terminates the process. Moreover no
snapshot ever holds status `"running"`, although the process was spawned. -/
theorem c5_cex_cancelled_then_completed :
    ((AppPyRun.execRun runCancelThenFinish)[1]?).map (fun p => AppPyRun.statusOf p.2)
        = some (some stCancelled) ∧
    ((AppPyRun.execRun runCancelThenFinish)[2]?).map (fun p => AppPyRun.statusOf p.2)
        = some (some stCompleted) ∧
    stCancelled ≠ stCompleted ∧
    (∀ p ∈ AppPyRun.execRun runCancelThenFinish, AppPyRun.statusOf p.2 ≠ some stRunning) :=
  ⟨by decide, by decide, by decide, by decide⟩

/-- C5 amended: a job's status is `"initializing"` when the record is
created and is never set to `"running"` (nor to the cancellable
`"downloading"` the cancel endpoint tests for); the final status written at
process exit is `"completed"` exactly on exit zero with an existing output
file and `"error"` otherwise, and every snapshot after that write keeps the
whole state unchanged (late cancels are `InvalidState` no-ops); but the
statuses `"cancelled"` and the probe-failure `"error"` written before
process exit are not terminal — the final write overwrites them, as the
counterexample shows. -/
theorem c5_amended_state_machine (r : AppPyRun.Run) :
    (∀ p ∈ AppPyRun.execRun r, AppPyRun.statusOf p.2 ≠ some stRunning) ∧
    ((AppPyRun.execRun r).head?.map fun p => AppPyRun.statusOf p.2)
        = some (some stInitializing) ∧
    AppPyRun.statusOf (AppPyRun.finState r)
        = some (if r.exitZero ∧ r.outputExists then stCompleted else stError) ∧
    (∀ p ∈ AppPyRun.postTail r, p.2 = AppPyRun.finState r) ∧
    AppPyRun.execRun r = (AppPyRun.StepTag.init, AppPyRun.initState r.t0)
      :: (AppPyRun.scanSteps (AppPyRun.initState r.t0) (AppPyRun.checkSteps r)
          ++ (AppPyRun.scanSteps (AppPyRun.preState r) (AppPyRun.evSteps r)
              ++ ((AppPyRun.StepTag.finish, AppPyRun.finState r) :: AppPyRun.postTail r))) := by
  refine ⟨?_, ?_, AppPyRun.finState_status r, AppPyRun.postTail_const r,
    AppPyRun.execRun_decomp r⟩
  · intro p hp
    exact AppPyRun.goodStatus_not_running (AppPyRun.execRun_good r p hp)
  · rw [AppPyRun.execRun]
    rfl

/-- C6: the Rate Estimator of `monitor_progress`. On each sampled line the
speed is recomputed as bytes over elapsed seconds (scaled to MB/s) only
when the elapsed time is positive and is left untouched when it is not (no
division by zero is evaluated); every speed value any snapshot ever holds
is non-negative; and no snapshot carries a computed ETA before the first
byte-count sample. -/
theorem c6_rate_estimator_guarded :
    (∀ (rec : AppPyRun.ProgressRecord) (line : String) (now : ℚ) (kb : Nat),
      parseSizeLine (pyStrip line) = some kb →
        (0 < now - rec.start_time →
          (AppPyRun.monitorLine rec line now).speed
            = some (((kb * 1024 : Nat) : ℚ) / (now - rec.start_time) / (1024 * 1024))) ∧
        (¬ 0 < now - rec.start_time →
          (AppPyRun.monitorLine rec line now).speed = rec.speed)) ∧
    (∀ r : AppPyRun.Run, ∀ p ∈ AppPyRun.execRun r,
      ∀ q : ℚ, AppPyRun.speedOf p.2 = some q → 0 ≤ q) ∧
    (∀ r : AppPyRun.Run, AppPyRun.etaBeforeSampleOK (AppPyRun.execRun r) = true) := by
  refine ⟨?_, ?_, AppPyRun.etaOK_execRun⟩
  · intro rec line now kb hp
    exact ⟨fun ht => AppPyRun.monitorLine_speed_pos hp rec now ht,
      fun ht => AppPyRun.monitorLine_speed_nonpos hp rec now ht⟩
  · intro r p hp q hq
    exact AppPyRun.execRun_speedOK r p hp q hq

/-- Witness for C6 at a concrete sample: 2048 kB after 2 seconds yields the
speed value (2048·1024)/2/2²⁰ MB/s. -/
theorem c6_rate_estimator_guarded_witness :
    (AppPyRun.monitorLine (AppPyRun.initRecord 0) lineKb2048 2).speed
      = some (((2048 * 1024 : Nat) : ℚ) / ((2 : ℚ) - (AppPyRun.initRecord 0).start_time)
          / (1024 * 1024)) :=
  (c6_rate_estimator_guarded.1 (AppPyRun.initRecord 0) lineKb2048 2 2048 (by decide)).1
    (by show (0 : ℚ) < 2 - 0; norm_num)

/-- C7 as stated is false on app.py: `monitor_progress` copies each parsed
size into `bytes_downloaded` without enforcing monotonicity, so a process
whose progress lines report a shrinking size makes the counter decrease —
in `runShrinkingSizes` snapshot 1 records 102400 bytes and snapshot 2
records 51200. -/
theorem c7_cex_bytes_decrease :
    ∃ p1 p2, (AppPyRun.execRun runShrinkingSizes)[1]? = some p1 ∧
      (AppPyRun.execRun runShrinkingSizes)[2]? = some p2 ∧
      AppPyRun.bytesOf p1.2 = 102400 ∧ AppPyRun.bytesOf p2.2 = 51200 ∧
      (51200 : Nat) < 102400 := by
  have h1 := @AppPyRun.applyEv_line_bytes lineKb100 100 (by decide)
    (AppPyRun.initState runShrinkingSizes.t0) rfl 1
  have hsome : (AppPyRun.applyEv (AppPyRun.initState runShrinkingSizes.t0)
      (AppPyRun.MonEv.line lineKb100 1)).record.isSome = true := by
    rw [AppPyRun.applyEv_isSome]
    rfl
  have h2 := @AppPyRun.applyEv_line_bytes lineKb50 50 (by decide)
    (AppPyRun.applyEv (AppPyRun.initState runShrinkingSizes.t0)
      (AppPyRun.MonEv.line lineKb100 1)) hsome 2
  refine ⟨_, _, rfl, rfl, ?_, ?_, by norm_num⟩
  · exact h1.trans (by norm_num)
  · exact h2.trans (by norm_num)

/-- C7 amended: the byte counter is monotonically non-decreasing provided
the sizes parsed from the process's successive progress lines are
non-decreasing (the code copies each parsed value, enforcing nothing), and
between consecutive snapshots the counter changes only at a sampled
progress line — it is written by no other step (cancel, probe failure,
final status write). -/
theorem c7_amended_bytes_monotone (r : AppPyRun.Run) :
    (List.Chain' (· ≤ ·) (AppPyRun.sampleSizes r.events) →
      List.Chain' (· ≤ ·) ((AppPyRun.execRun r).map fun p => AppPyRun.bytesOf p.2)) ∧
    List.Chain' (fun p q => AppPyRun.bytesOf q.2 = AppPyRun.bytesOf p.2
        ∨ q.1 = AppPyRun.StepTag.line true) (AppPyRun.execRun r) := by
  constructor
  · intro hchain
    rw [AppPyRun.execRun, List.map_cons]
    exact AppPyRun.scan_bytes_chain (AppPyRun.runSteps r) (AppPyRun.initState r.t0) rfl
      (by rw [AppPyRun.sampleSizesSteps_runSteps]; exact hchain)
      (by
        intro k _
        show AppPyRun.bytesOf (AppPyRun.initState r.t0) ≤ k * 1024
        exact Nat.zero_le _)
  · rw [AppPyRun.execRun]
    exact AppPyRun.scan_writer (AppPyRun.runSteps r) (AppPyRun.initState r.t0)
      (AppPyRun.StepTag.init, AppPyRun.initState r.t0) rfl

/-- Witness for C7 at a run with growing sizes 100 kB, 2048 kB. -/
theorem c7_amended_bytes_monotone_witness :
    List.Chain' (· ≤ ·) ((AppPyRun.execRun runGrowingSizes).map fun p => AppPyRun.bytesOf p.2) :=
  (c7_amended_bytes_monotone runGrowingSizes).1 (by
    rw [show AppPyRun.sampleSizes runGrowingSizes.events = [100, 2048] from by decide]
    simp [List.chain'_cons])

theorem str_append_ne_empty {s : String} (t : String) (h : s.data ≠ []) : s ++ t ≠ "" := by
  intro he
  apply h
  have hd := congrArg String.data he
  rw [String.data_append] at hd
  exact (List.append_eq_nil.mp hd).1

theorem downloadSucceeds_of_ok {w : AppFixed.World} {dir m p : String} {sz : Nat}
    (h : (AppFixed.download_m3u8_video w dir).result = AppFixed.DlResult.ok m p sz) :
    AppFixed.downloadSucceeds w = true := by
  unfold AppFixed.download_m3u8_video at h
  split_ifs at h with h1 h2 h3 h4
  unfold AppFixed.downloadSucceeds
  simp only [not_not, Bool.not_eq_true, ne_eq, not_not] at h1 h2 h3
  simp [h1, h2, h3, h4.1, h4.2]

/-- C1: when the external process exits with code zero and the output file
exists, `download_m3u8_video` answers the success dict whose `file_path` is
the job's output file; the stream handler returns that file and does not
remove the working directory; the `/download` handler answers
`status: "completed"` with the same path and keeps the directory; and in
app.py's runner the final status write at such an exit is `"completed"` and
leaves the directory flag untouched. -/
theorem c1_success_completed_dir_kept (w : AppFixed.World) (url id : String)
    (hu : AppFixed.validUrl url = true) (hne : url ≠ AppFixed.emptyStr)
    (hf : w.ffmpegFound = true) (hv : w.versionRc = 0) (hs : w.mainSpawnOk = true)
    (hx : w.exitCode = 0) (ho : w.outputExists = true) :
    (AppFixed.download_m3u8_video w (AppFixed.jobDir id)).result
        = AppFixed.DlResult.ok AppFixed.dlDoneMsg
            (AppFixed.outputFile (AppFixed.jobDir id) w) w.outputSize ∧
    (AppFixed.stream_download_video w url id).outcome
        = AppFixed.HttpOutcome.fileResponse (AppFixed.outputFile (AppFixed.jobDir id) w)
            (AppFixed.basename (AppFixed.outputFile (AppFixed.jobDir id) w)) ∧
    (AppFixed.stream_download_video w url id).dirRemoved = false ∧
    (AppFixed.download_video w url id).outcome
        = AppFixed.HttpOutcome.completedJson id (AppFixed.jobDir id)
            (AppFixed.outputFile (AppFixed.jobDir id) w) w.outputSize ∧
    (AppFixed.download_video w url id).dirRemoved = false ∧
    (∀ run : AppPyRun.Run, run.exitZero = true → run.outputExists = true →
      AppPyRun.statusOf (AppPyRun.finState run) = some stCompleted ∧
      (AppPyRun.finState run).dirRemoved = (AppPyRun.midState run).dirRemoved) := by
  refine ⟨?_, ?_, ?_, ?_, ?_, ?_⟩
  · simp [AppFixed.download_m3u8_video, hf, hv, hs, hx, ho]
  · simp [AppFixed.stream_download_video, AppFixed.download_m3u8_video, hne, hu, hf, hv, hs,
      hx, ho]
  · simp [AppFixed.stream_download_video, AppFixed.download_m3u8_video, hne, hu, hf, hv, hs,
      hx, ho]
  · simp [AppFixed.download_video, AppFixed.download_m3u8_video, hne, hu, hf, hv, hs, hx, ho]
  · simp [AppFixed.download_video, AppFixed.download_m3u8_video, hne, hu, hf, hv, hs, hx, ho]
  · intro run hz hoo
    refine ⟨?_, (AppPyRun.finishWrite_parts run.exitZero run.outputExists
      (AppPyRun.midState run)).2.2.2.2⟩
    rw [AppPyRun.finState_status run]
    simp [hz, hoo]

/-- Witness for C1 at the concrete success world `wOk`. -/
theorem c1_success_completed_dir_kept_witness :
    (AppFixed.stream_download_video wOk urlSample idSample).outcome
        = AppFixed.HttpOutcome.fileResponse (AppFixed.outputFile (AppFixed.jobDir idSample) wOk)
            (AppFixed.basename (AppFixed.outputFile (AppFixed.jobDir idSample) wOk)) ∧
    (AppFixed.stream_download_video wOk urlSample idSample).dirRemoved = false :=
  ⟨(c1_success_completed_dir_kept wOk urlSample idSample (by decide) (by decide) rfl rfl rfl
      rfl rfl).2.1,
   (c1_success_completed_dir_kept wOk urlSample idSample (by decide) (by decide) rfl rfl rfl
      rfl rfl).2.2.1⟩

/-- C2: when the process exits nonzero or the output file is missing, the
result is the error dict whose message is non-empty and carries the decoded
stderr text whenever that text is non-empty; the stream handler answers
HTTP 500 and removes the working directory; and app.py's runner writes
status `"error"` at such an exit. -/
theorem c2_failure_error_dir_removed (w : AppFixed.World) (url id : String)
    (hu : AppFixed.validUrl url = true) (hne : url ≠ AppFixed.emptyStr)
    (hf : w.ffmpegFound = true) (hv : w.versionRc = 0) (hs : w.mainSpawnOk = true)
    (hfail : ¬ (w.exitCode = 0 ∧ w.outputExists = true)) :
    (AppFixed.download_m3u8_video w (AppFixed.jobDir id)).result
        = AppFixed.DlResult.err (AppFixed.dlFailedStem ++ AppFixed.errText w) ∧
    AppFixed.dlFailedStem ++ AppFixed.errText w ≠ "" ∧
    (w.stderrText ≠ "" →
      AppFixed.dlFailedStem ++ AppFixed.errText w = AppFixed.dlFailedStem ++ w.stderrText) ∧
    (AppFixed.stream_download_video w url id).outcome
        = AppFixed.HttpOutcome.serverError (AppFixed.dlFailedStem
            ++ AppFixed.httpExc500Str (AppFixed.dlFailedStem ++ AppFixed.errText w)) ∧
    (AppFixed.stream_download_video w url id).dirRemoved = true ∧
    (∀ run : AppPyRun.Run, ¬ (run.exitZero = true ∧ run.outputExists = true) →
      AppPyRun.statusOf (AppPyRun.finState run) = some stError) := by
  refine ⟨?_, str_append_ne_empty _ (by decide), ?_, ?_, ?_, ?_⟩
  · simp [AppFixed.download_m3u8_video, hf, hv, hs, hfail]
  · intro hst
    simp [AppFixed.errText, hst]
  · simp [AppFixed.stream_download_video, AppFixed.download_m3u8_video, hne, hu, hf, hv, hs,
      hfail]
  · simp [AppFixed.stream_download_video, AppFixed.download_m3u8_video, hne, hu, hf, hv, hs,
      hfail]
  · intro run hrf
    rw [AppPyRun.finState_status run]
    simp [hrf]

/-- Witness for C2 at the concrete world `wFail` (exit code 1, non-empty
stderr). -/
theorem c2_failure_error_dir_removed_witness :
    (AppFixed.stream_download_video wFail urlSample idSample).dirRemoved = true ∧
    AppFixed.dlFailedStem ++ AppFixed.errText wFail ≠ "" :=
  ⟨(c2_failure_error_dir_removed wFail urlSample idSample (by decide) (by decide) rfl rfl rfl
      (by decide)).2.2.2.2.1,
   (c2_failure_error_dir_removed wFail urlSample idSample (by decide) (by decide) rfl rfl rfl
      (by decide)).2.1⟩

/-- C3: when the `ffmpeg` executable cannot be invoked (FileNotFoundError
from the probe), the call answers the `"FFmpeg is not installed"` error
without ever spawning a download process, and the stream handler answers
HTTP 500 and removes the freshly created directory; likewise when the probe
runs but exits nonzero, the `return` at app_fixed.py line 53 prevents the
spawn. -/
theorem c3_tool_unavailable_no_spawn (w : AppFixed.World) (url id : String)
    (hu : AppFixed.validUrl url = true) (hne : url ≠ AppFixed.emptyStr) :
    (w.ffmpegFound = false →
      (AppFixed.download_m3u8_video w (AppFixed.jobDir id)).result
          = AppFixed.DlResult.err AppFixed.notInstalledMsg ∧
      (AppFixed.download_m3u8_video w (AppFixed.jobDir id)).mainSpawned = false ∧
      (AppFixed.stream_download_video w url id).outcome
          = AppFixed.HttpOutcome.serverError (AppFixed.dlFailedStem
              ++ AppFixed.httpExc500Str AppFixed.notInstalledMsg) ∧
      (AppFixed.stream_download_video w url id).dirRemoved = true ∧
      (AppFixed.stream_download_video w url id).mainSpawned = false) ∧
    (w.ffmpegFound = true → w.versionRc ≠ 0 →
      (AppFixed.download_m3u8_video w (AppFixed.jobDir id)).result
          = AppFixed.DlResult.err AppFixed.notAvailableMsg ∧
      (AppFixed.download_m3u8_video w (AppFixed.jobDir id)).mainSpawned = false ∧
      (AppFixed.stream_download_video w url id).dirRemoved = true ∧
      (AppFixed.stream_download_video w url id).mainSpawned = false) := by
  constructor
  · intro hnf
    refine ⟨?_, ?_, ?_, ?_, ?_⟩ <;>
      simp [AppFixed.download_m3u8_video, AppFixed.stream_download_video, hne, hu, hnf]
  · intro hf hv
    refine ⟨?_, ?_, ?_, ?_⟩ <;>
      simp [AppFixed.download_m3u8_video, AppFixed.stream_download_video, hne, hu, hf, hv]

/-- Witness for C3 at the concrete world `wNoTool`. -/
theorem c3_tool_unavailable_no_spawn_witness :
    (AppFixed.stream_download_video wNoTool urlSample idSample).mainSpawned = false ∧
    (AppFixed.stream_download_video wNoTool urlSample idSample).dirRemoved = true :=
  ⟨((c3_tool_unavailable_no_spawn wNoTool urlSample idSample (by decide) (by decide)).1
      rfl).2.2.2.2,
   ((c3_tool_unavailable_no_spawn wNoTool urlSample idSample (by decide) (by decide)).1
      rfl).2.2.2.1⟩

/-- C9 as stated is false on the code: `stream_download_video` does not
return a job id and does not return before the job completes — its answer
is a function of the process's terminal outcome. At the same URL and id,
the world `wOk` (exit 0) yields the completed file while `wFail` (exit 1,
all else equal) yields an HTTP 500, so the response is decided by the
download's completion, which the call therefore awaited. -/
theorem c9_cex_stream_blocks_until_done :
    (AppFixed.stream_download_video wOk urlSample idSample).outcome
        = AppFixed.HttpOutcome.fileResponse (AppFixed.outputFile (AppFixed.jobDir idSample) wOk)
            (AppFixed.basename (AppFixed.outputFile (AppFixed.jobDir idSample) wOk)) ∧
    (AppFixed.stream_download_video wFail urlSample idSample).outcome
        = AppFixed.HttpOutcome.serverError (AppFixed.dlFailedStem
            ++ AppFixed.httpExc500Str (AppFixed.dlFailedStem ++ stderrSample)) ∧
    (AppFixed.stream_download_video wOk urlSample idSample).outcome
        ≠ (AppFixed.stream_download_video wFail urlSample idSample).outcome :=
  ⟨by decide, by decide, by decide⟩

/-- C9 amended: the handler validates the URL (rejecting an empty or
non-HTTP(S) one with 400 before any directory is created) and allocates a
fresh working directory, but it runs the download synchronously: the call
returns only after the job's terminal outcome, answering the completed file
on success and an HTTP 500 (after removing the directory) on failure; no
job id is returned. -/
theorem c9_amended_stream_synchronous (w : AppFixed.World) (url id : String) :
    ((url = AppFixed.emptyStr ∨ AppFixed.validUrl url = false) →
      (∃ d, (AppFixed.stream_download_video w url id).outcome
          = AppFixed.HttpOutcome.badRequest d) ∧
      (AppFixed.stream_download_video w url id).dirCreated = false) ∧
    (url ≠ AppFixed.emptyStr → AppFixed.validUrl url = true →
      (AppFixed.stream_download_video w url id).dirCreated = true ∧
      (AppFixed.downloadSucceeds w = true →
        (AppFixed.stream_download_video w url id).outcome
          = AppFixed.HttpOutcome.fileResponse (AppFixed.outputFile (AppFixed.jobDir id) w)
              (AppFixed.basename (AppFixed.outputFile (AppFixed.jobDir id) w)) ∧
        (AppFixed.stream_download_video w url id).dirRemoved = false) ∧
      (AppFixed.downloadSucceeds w = false →
        (∃ m, (AppFixed.stream_download_video w url id).outcome
            = AppFixed.HttpOutcome.serverError m) ∧
        (AppFixed.stream_download_video w url id).dirRemoved = true)) := by
  constructor
  · intro hbad
    rcases hbad with hbad | hbad
    · constructor
      · exact ⟨AppFixed.urlRequiredMsg, by simp [AppFixed.stream_download_video, hbad]⟩
      · simp [AppFixed.stream_download_video, hbad]
    · by_cases hemp : url = AppFixed.emptyStr
      · constructor
        · exact ⟨AppFixed.urlRequiredMsg, by simp [AppFixed.stream_download_video, hemp]⟩
        · simp [AppFixed.stream_download_video, hemp]
      · constructor
        · exact ⟨AppFixed.invalidUrlMsg, by simp [AppFixed.stream_download_video, hemp, hbad]⟩
        · simp [AppFixed.stream_download_video, hemp, hbad]
  · intro hne hu
    have hsplit : (AppFixed.downloadSucceeds w = true
        ∧ w.ffmpegFound = true ∧ w.versionRc = 0 ∧ w.mainSpawnOk = true
        ∧ w.exitCode = 0 ∧ w.outputExists = true)
        ∨ AppFixed.downloadSucceeds w = false := by
      rcases hb : AppFixed.downloadSucceeds w with _ | _
      · exact Or.inr rfl
      · refine Or.inl ⟨rfl, ?_⟩
        unfold AppFixed.downloadSucceeds at hb
        simp only [Bool.and_eq_true, beq_iff_eq] at hb
        exact ⟨hb.1.1.1, hb.1.1.2, hb.1.2, hb.2.1, hb.2.2⟩
    refine ⟨?_, ?_, ?_⟩
    · rcases hres : (AppFixed.download_m3u8_video w (AppFixed.jobDir id)).result
        with ⟨m, p, sz⟩ | m <;>
        simp [AppFixed.stream_download_video, hne, hu, hres]
    · intro hok
      rcases hsplit with ⟨_, hf, hv, hs, hx, ho⟩ | hbad
      · constructor
        · simp [AppFixed.stream_download_video, AppFixed.download_m3u8_video, hne, hu, hf,
            hv, hs, hx, ho]
        · simp [AppFixed.stream_download_video, AppFixed.download_m3u8_video, hne, hu, hf,
            hv, hs, hx, ho]
      · rw [hok] at hbad
        exact absurd hbad (by simp)
    · intro hbad
      rcases hres : (AppFixed.download_m3u8_video w (AppFixed.jobDir id)).result
        with ⟨m, p, sz⟩ | m
      · exact absurd (downloadSucceeds_of_ok hres) (by rw [hbad]; simp)
      · constructor
        · exact ⟨AppFixed.dlFailedStem ++ AppFixed.httpExc500Str m,
            by simp [AppFixed.stream_download_video, hne, hu, hres]⟩
        · simp [AppFixed.stream_download_video, hne, hu, hres]

/-- C10: app.py never defines or imports `download_progress`, `time` or
`re`; the `try` statement opened at line 60 has no `except` and no
`finally` clause, so the module does not even parse; consequently each
progress-touching operation — starting a job via `/stream`, the progress
query, the cancel endpoint — fails for every input, whatever the handler
logic `k` would have answered. -/
theorem c10_apppy_module_broken :
    AppPyMod.globalDefined AppPyMod.dpName = false ∧
    AppPyMod.globalDefined timeName = false ∧
    AppPyMod.globalDefined reName = false ∧
    AppPyMod.innerTry.exceptClauses = 0 ∧
    AppPyMod.innerTry.hasFinally = false ∧
    AppPyMod.appParses = false ∧
    (∀ (k : AppPyMod.OpOutcome) (url : String),
      AppPyMod.startJobOp k url = AppPyMod.OpOutcome.syntaxErr) ∧
    (∀ (k : AppPyMod.OpOutcome) (id : String),
      AppPyMod.progressQueryOp k id = AppPyMod.OpOutcome.syntaxErr) ∧
    (∀ (k : AppPyMod.OpOutcome) (id : String),
      AppPyMod.cancelOp k id = AppPyMod.OpOutcome.syntaxErr) :=
  ⟨by decide, by decide, by decide, rfl, rfl, by decide,
   fun _ _ => rfl, fun _ _ => rfl, fun _ _ => rfl⟩

/-- C4 is the contract app.py's `cancel_download` body implements, but no
call ever reaches that body: the module fails to parse (and even per
function, the first statement reads the unbound `download_progress`), so a
cancel of an unknown id answers no `NotFound` — evaluated here at the
failing input `unknownId` with a continuation that would have answered
404. -/
theorem c4_cancel_eval_at_failing_input :
    AppPyMod.cancelOp (AppPyMod.OpOutcome.httpError 404 notFoundDetail) unknownId
        = AppPyMod.OpOutcome.syntaxErr ∧
    AppPyMod.OpOutcome.syntaxErr ≠ AppPyMod.OpOutcome.httpError 404 notFoundDetail :=
  ⟨by decide, by decide⟩

end FakePW
